import Mathlib

/-!
Verification of the `basic_http_server` repository (a minimal HTTP/1.1 server).

Bytes are modelled as `Nat` (values 0..255 in practice), byte strings as
`List Nat`.  The filesystem is an association list from file names (byte
strings) to file contents.  The TCP stream is modelled as the list of results
of successive reads: each element is the chunk of bytes that one read call
returned (an empty chunk models a zero-length read, i.e. end of stream).
-/

namespace BasicHttpServer

/-- ASCII bytes of a Lean string literal (used only for ASCII literals). -/
def strBytes (s : String) : List Nat := s.data.map Char.toNat

/-- ASCII lower-casing of one byte, as Rust's `to_ascii_lowercase`. -/
def lowerByte (b : Nat) : Nat := if 65 ≤ b ∧ b ≤ 90 then b + 32 else b

/-- ASCII lower-casing of a byte string. -/
def lowerB (l : List Nat) : List Nat := l.map lowerByte

/-- Rust's `eq_ignore_ascii_case` on byte strings. -/
def eqCI (a b : List Nat) : Bool := lowerB a == lowerB b

/-- `startsWithB l pat` is Rust's `l.starts_with(pat)`. -/
def startsWithB : List Nat → List Nat → Bool
  | _, [] => true
  | [], _ :: _ => false
  | x :: xs, y :: ys => x == y && startsWithB xs ys

/-- `containsSub pat l` is Rust's `l.contains(pat)` (substring search). -/
def containsSub (pat : List Nat) : List Nat → Bool
  | [] => startsWithB [] pat
  | x :: rest => startsWithB (x :: rest) pat || containsSub pat rest

/-- Fuel-indexed decimal digit accumulation (most significant digit first). -/
def decDigitsCore : Nat → Nat → List Nat → List Nat
  | 0, _, acc => acc
  | fuel + 1, n, acc =>
    if n < 10 then (48 + n) :: acc
    else decDigitsCore fuel (n / 10) ((48 + n % 10) :: acc)

/-- ASCII decimal representation of a natural number, as Rust formats
`usize`/status codes. -/
def decimalBytes (n : Nat) : List Nat := decDigitsCore (n + 1) n []

/-- UTF-8 validation automaton: `pend` is the number of continuation bytes
still expected, with the next one required to lie in `lo..hi`.  Models the
check done by Rust's `std::str::from_utf8`. -/
def utf8Aux : List Nat → Nat → Nat → Nat → Bool
  | [], pend, _, _ => pend == 0
  | b :: rest, 0, _, _ =>
    if b ≤ 127 then utf8Aux rest 0 0 0
    else if 194 ≤ b ∧ b ≤ 223 then utf8Aux rest 1 128 191
    else if b = 224 then utf8Aux rest 2 160 191
    else if 225 ≤ b ∧ b ≤ 236 then utf8Aux rest 2 128 191
    else if b = 237 then utf8Aux rest 2 128 159
    else if 238 ≤ b ∧ b ≤ 239 then utf8Aux rest 2 128 191
    else if b = 240 then utf8Aux rest 3 144 191
    else if 241 ≤ b ∧ b ≤ 243 then utf8Aux rest 3 128 191
    else if b = 244 then utf8Aux rest 3 128 143
    else false
  | b :: rest, pend + 1, lo, hi =>
    if lo ≤ b ∧ b ≤ hi then utf8Aux rest pend 128 191 else false

/-- Whether a byte string is valid UTF-8 (`std::str::from_utf8` succeeds). -/
def validUtf8 (l : List Nat) : Bool := utf8Aux l 0 0 0

/-! ## Head scanning (modelled from the spec)

The repository delegates request-head detection and header splitting to the
external `httparse` crate; only its callers live in `src/`.  The functions in
this section are therefore modelled from the spec (§4.1): need-more-data until
the terminating blank line `\x0d\x0a\x0d\x0a` appears, then the request line
`METHOD SP PATH SP HTTP/1.1` and `Name: value` header lines, `Malformed` on
syntactically invalid data, at most 16 headers (the caller's header array). -/

/-- Index of the first occurrence of the head terminator
`[13, 10, 13, 10]` (`\x0d\x0a\x0d\x0a`). -/
def findTerm : List Nat → Option Nat
  | [] => none
  | x :: rest =>
    if (x :: rest).take 4 = [13, 10, 13, 10] then some 0
    else (findTerm rest).map (· + 1)

/-- Helper for the line splitters: push a byte onto the first piece. -/
def consHead (x : Nat) : List (List Nat) → List (List Nat)
  | [] => [[x]]
  | h :: t => (x :: h) :: t

/-- Split a byte string at each `\x0d\x0a` pair. -/
def splitCRLF : List Nat → List (List Nat)
  | [] => [[]]
  | [x] => [[x]]
  | x :: y :: rest =>
    if x = 13 ∧ y = 10 then [] :: splitCRLF rest
    else consHead x (splitCRLF (y :: rest))

/-- Split a byte string at each space byte. -/
def splitSP : List Nat → List (List Nat)
  | [] => [[]]
  | x :: rest => if x = 32 then [] :: splitSP rest else consHead x (splitSP rest)

/-- Split a byte string at the first colon, if any. -/
def splitColon : List Nat → Option (List Nat × List Nat)
  | [] => none
  | x :: rest =>
    if x = 58 then some ([], rest)
    else (splitColon rest).map (fun pr => (x :: pr.1, pr.2))

/-- Drop leading ASCII whitespace (space or tab) from a header value. -/
def dropWS (l : List Nat) : List Nat := l.dropWhile (fun b => b == 32 || b == 9)

/-- Bytes allowed in a method or path token: printable ASCII, no space. -/
def tokenByte (b : Nat) : Bool := 33 ≤ b && b ≤ 126

/-- Bytes allowed in a header name: printable ASCII, no space, no colon. -/
def nameByte (b : Nat) : Bool := (33 ≤ b && b ≤ 126) && b != 58

/-- The ASCII bytes of `HTTP/1.1`. -/
def HTTP11 : List Nat := strBytes "HTTP/1.1"

/-- Parse one `Name: value` header line (leading value whitespace dropped). -/
def parseHeaderLine (l : List Nat) : Option (List Nat × List Nat) :=
  match splitColon l with
  | none => none
  | some (n, rest) =>
    if !n.isEmpty && n.all nameByte then some (n, dropWS rest) else none

/-- Parse all header lines, failing if any line is invalid. -/
def parseHeaderLines : List (List Nat) → Option (List (List Nat × List Nat))
  | [] => some []
  | l :: ls =>
    match parseHeaderLine l with
    | none => none
    | some h => (parseHeaderLines ls).map (h :: ·)

/-- The result of a complete head parse: method and path tokens, header
name/value pairs in order, and the byte offset where the body begins. -/
structure ParsedHead where
  method : List Nat
  path : List Nat
  headers : List (List Nat × List Nat)
  bodyOffset : Nat
deriving DecidableEq

/-- Parse the complete head region (the bytes before the terminator) given
the body offset: request line plus header lines. -/
def parseHeadCore (headBytes : List Nat) (offset : Nat) :
    Except Unit (Option ParsedHead) :=
  match splitCRLF headBytes with
  | [] => .error ()
  | rl :: hls =>
    match splitSP rl with
    | [m, p, v] =>
      if m ≠ [] ∧ m.all tokenByte = true ∧ p ≠ [] ∧ p.all tokenByte = true
          ∧ v = HTTP11 ∧ hls.length ≤ 16 then
        match parseHeaderLines hls with
        | none => .error ()
        | some hs => .ok (some ⟨m, p, hs, offset⟩)
      else .error ()
    | _ => .error ()

/-- Modelled from the spec: the head scanner the repository obtains from the
external `httparse` crate (`httparse::Request::parse` inside
`BasicHttpServer::parse_request`).  `.ok none` is "need more data" (the
terminating blank line has not yet appeared), `.error` is a malformed head,
and `.ok (some h)` is a completely parsed head with its body offset. -/
def parseHead (buf : List Nat) : Except Unit (Option ParsedHead) :=
  match findTerm buf with
  | none => .ok none
  | some q => parseHeadCore (buf.take q) (q + 4)

example : parseHead (strBytes "GET / HTTP/1.1\r\n") = .ok none := rfl
example : parseHead (strBytes "GET / HTTP/1.1\r\n\r\n")
    = .ok (some ⟨strBytes "GET", strBytes "/", [], 18⟩) := rfl
example : parseHead (strBytes "GET / HTTP/1.1\r\nHost: a\r\n\r\n")
    = .ok (some ⟨strBytes "GET", strBytes "/",
        [(strBytes "Host", strBytes "a")], 27⟩) := rfl

/-! ## `parse_request` (from `src/basic_http_server.rs`, lines 142-220) -/

/-- The `HttpEncoding` enum of the source. -/
inductive HttpEncoding
  | gzip
deriving DecidableEq

/-- The `ParseResult` enum of the source: a parsed GET or POST request. -/
inductive ParseResult
  | get (close : Bool) (path : List Nat) (ua : Option (List Nat))
      (encoding : Option HttpEncoding)
  | post (close : Bool) (path : List Nat) (bodyOffset : Nat) (bodyLen : Nat)
deriving DecidableEq

/-- `BasicHttpServer::parse_encoding`: record gzip iff the lower-cased value
contains the substring `gzip`. -/
def parse_encoding (v : List Nat) : Option HttpEncoding :=
  if containsSub (strBytes "gzip") (lowerB v) then some .gzip else none

/-- The header loop of the GET arm of `parse_request`: scan the headers in
order, updating the `Connection`/`User-Agent`/`Accept-Encoding` results
(last occurrence wins); a value that is not valid UTF-8 is an error. -/
def getFold : List (List Nat × List Nat) → Bool → Option (List Nat) →
    Option HttpEncoding → Except Unit (Bool × Option (List Nat) × Option HttpEncoding)
  | [], c, u, e => .ok (c, u, e)
  | (n, v) :: rest, c, u, e =>
    if eqCI n (strBytes "connection") then
      if validUtf8 v then getFold rest (eqCI v (strBytes "close")) u e
      else .error ()
    else if eqCI n (strBytes "user-agent") then
      if validUtf8 v then getFold rest c (some v) e else .error ()
    else if eqCI n (strBytes "accept-encoding") then
      if validUtf8 v then getFold rest c u (parse_encoding v) else .error ()
    else getFold rest c u e

/-- Rust's `str::parse::<usize>`: optional leading `+`, one or more ASCII
digits, error on anything else or on overflow past `2 ^ 64 - 1`. -/
def parse_usize (v : List Nat) : Option Nat :=
  let core := match v with
    | 43 :: rest => rest
    | _ => v
  if core ≠ [] ∧ core.all (fun b => 48 ≤ b && b ≤ 57) = true then
    let n := core.foldl (fun a d => a * 10 + (d - 48)) 0
    if n < 2 ^ 64 then some n else none
  else none

/-- The header loop of the POST arm of `parse_request`: track the
`Connection: close` flag and the declared `Content-Length` (default 0). -/
def postFold : List (List Nat × List Nat) → Bool → Nat → Except Unit (Bool × Nat)
  | [], c, bl => .ok (c, bl)
  | (n, v) :: rest, c, bl =>
    if eqCI n (strBytes "connection") then
      if validUtf8 v then postFold rest (eqCI v (strBytes "close")) bl
      else .error ()
    else if eqCI n (strBytes "content-length") then
      if validUtf8 v then
        match parse_usize v with
        | some bl' => postFold rest c bl'
        | none => .error ()
      else .error ()
    else postFold rest c bl

/-- `BasicHttpServer::parse_request`: `.ok none` is a partial head (read
more), `.error` aborts the connection (malformed head, non-UTF-8 header value,
bad `Content-Length`, or a method other than GET/POST). -/
def parse_request (buf : List Nat) : Except Unit (Option ParseResult) :=
  match parseHead buf with
  | .error _ => .error ()
  | .ok none => .ok none
  | .ok (some h) =>
    if h.method = strBytes "GET" then
      match getFold h.headers false none none with
      | .error _ => .error ()
      | .ok (c, u, e) => .ok (some (.get c h.path u e))
    else if h.method = strBytes "POST" then
      match postFold h.headers false 0 with
      | .error _ => .error ()
      | .ok (c, bl) => .ok (some (.post c h.path h.bodyOffset bl))
    else .error ()

example : parse_request (strBytes "GET / HTTP/1.1\r\nConnection: close\r\n\r\n")
    = .ok (some (.get true (strBytes "/") none none)) := rfl
example : parse_request (strBytes "DELETE / HTTP/1.1\r\n\r\n") = .error () := rfl
example : parse_request
      (strBytes "POST /files/a HTTP/1.1\r\nContent-Length: 5\r\n\r\nab")
    = .ok (some (.post false (strBytes "/files/a") 45 5)) := rfl

/-! ## Responses and the serializer (source lines 222-283)

The `http` crate's `HeaderMap` stores header names lower-cased and preserves
insertion order, and `serialize_response` prints `hname.as_str()`, which is
the lower-cased name; response constructors therefore store lower-case
names. -/

/-- A structured response: status code, ordered headers, body. -/
structure HttpResponse where
  status : Nat
  headers : List (List Nat × List Nat)
  body : List Nat
deriving DecidableEq

/-- `resp.status().canonical_reason().unwrap_or("")`, for the status codes
this server emits. -/
def reasonOf (s : Nat) : List Nat :=
  if s = 200 then strBytes "OK"
  else if s = 201 then strBytes "Created"
  else if s = 404 then strBytes "Not Found"
  else []

/-- `BasicHttpServer::response200`. -/
def response200 (body : List Nat) (contType : List Nat)
    (encoding : Option HttpEncoding) : HttpResponse :=
  { status := 200
    headers := [(strBytes "content-length", decimalBytes body.length),
                (strBytes "content-type", contType)] ++
      (match encoding with
       | some .gzip => [(strBytes "content-encoding", strBytes "gzip")]
       | none => [])
    body := body }

/-- `BasicHttpServer::response200pt`. -/
def response200pt (body : List Nat) (encoding : Option HttpEncoding) : HttpResponse :=
  response200 body (strBytes "text/plain") encoding

/-- `BasicHttpServer::response200bin`. -/
def response200bin (body : List Nat) : HttpResponse :=
  response200 body (strBytes "application/octet-stream") none

/-- `BasicHttpServer::response201`. -/
def response201 : HttpResponse :=
  ⟨201, [(strBytes "content-length", strBytes "0")], []⟩

/-- `BasicHttpServer::response404`. -/
def response404 : HttpResponse :=
  ⟨404, [(strBytes "content-length", strBytes "0")], []⟩

/-- One header on the wire: `name: value` followed by `\x0d\x0a`. -/
def headerWire (h : List Nat × List Nat) : List Nat :=
  h.1 ++ [58, 32] ++ h.2 ++ [13, 10]

/-- `BasicHttpServer::serialize_response`: status line, headers in order,
blank line, then the raw body bytes. -/
def serialize_response (r : HttpResponse) : List Nat :=
  strBytes "HTTP/1.1 " ++ decimalBytes r.status ++ [32] ++ reasonOf r.status
    ++ [13, 10] ++ (r.headers.map headerWire).flatten ++ [13, 10] ++ r.body

example : serialize_response response404
    = strBytes "HTTP/1.1 404 Not Found\r\ncontent-length: 0\r\n\r\n" := rfl
example : serialize_response (response200pt (strBytes "abc") (some .gzip))
    = strBytes
        "HTTP/1.1 200 OK\r\ncontent-length: 3\r\ncontent-type: text/plain\r\ncontent-encoding: gzip\r\n\r\nabc" := rfl

/-! ## Filesystem model and the router/handler (source lines 84-139, 285-310) -/

/-- The filesystem under the configured base directory: an association list
from full file names to contents; the most recent write wins. -/
abbrev FS := List (List Nat × List Nat)

/-- Look a file up (Rust `File::open` + `read_to_end`; `none` is the error). -/
def fsRead : FS → List Nat → Option (List Nat)
  | [], _ => none
  | (k, v) :: rest, key => if k = key then some v else fsRead rest key

/-- Create/truncate a file with the given contents (`File::create`). -/
def fsWrite (fs : FS) (key contents : List Nat) : FS := (key, contents) :: fs

/-- `BasicHttpServer::read_file`: open `dir ++ path` and read it all. -/
def read_file (path dir : List Nat) (fs : FS) : Option (List Nat) :=
  fsRead fs (dir ++ path)

/-- Rust string slicing `&path[i..]`: `none` models the panic when `i` is past
the end or not on a character boundary (a UTF-8 continuation byte at `i`). -/
def sliceFrom (l : List Nat) (i : Nat) : Option (List Nat) :=
  if i ≤ l.length then
    match (l.drop i).head? with
    | none => some []
    | some b => if 128 ≤ b ∧ b ≤ 191 then none else some (l.drop i)
  else none

/-- Outcome of the GET arm of the router: a response, or a Rust panic. -/
inductive GetResult
  | resp (r : HttpResponse)
  | panicked
deriving DecidableEq

/-- The GET arm of the `match` in `BasicHttpServer::handle_request`
(source lines 85-110): prefix routing over `/`, `/echo`, `/user-agent`,
`/files`, else 404.  `.panicked` is the out-of-range `path[6..]` slice. -/
def handle_get (path : List Nat) (ua : Option (List Nat))
    (encoding : Option HttpEncoding) (dir : List Nat) (fs : FS) : GetResult :=
  if path = strBytes "/" then .resp (response200pt [] encoding)
  else if startsWithB (lowerB path) (strBytes "/echo") then
    match sliceFrom path 6 with
    | none => .panicked
    | some rest => .resp (response200pt rest encoding)
  else if lowerB path = strBytes "/user-agent" then
    .resp (response200pt (ua.getD []) encoding)
  else if startsWithB (lowerB path) (strBytes "/files") then
    match sliceFrom path 6 with
    | none => .panicked
    | some p6 =>
      match read_file p6 dir fs with
      | some c => .resp (response200bin c)
      | none => .resp response404
  else .resp response404

/-- Outcome of the body-draining loop of `write_file`.  `.starved` means the
supplied read trace ran out while bytes were still owed: the real loop would
keep issuing reads (and, at end of stream, receive zero bytes forever). -/
inductive WriteOutcome
  | done (contents : List Nat) (leftover : List (List Nat))
  | starved (contents : List Nat) (remaining : Nat)
deriving DecidableEq

/-- The `while content_len > 0` loop of `BasicHttpServer::write_file`
(source lines 301-307): read into a buffer of `min remaining 65536` bytes,
append whatever arrived to the file, subtract the count read.  A zero-length
read subtracts nothing and leaves the state unchanged. -/
def writeLoop (acc : List Nat) (remaining : Nat) :
    List (List Nat) → WriteOutcome
  | [] => if remaining = 0 then .done acc [] else .starved acc remaining
  | c :: rest =>
    if remaining = 0 then .done acc (c :: rest)
    else
      let chunk := c.take (min remaining 65536)
      writeLoop (acc ++ chunk) (remaining - chunk.length) rest

/-- Outcome of `BasicHttpServer::write_file`.  `.panicked` is the
`content_len - content_prefix.len()` usize underflow (a panic in a checked
build), which fires after the whole prefix was already written. -/
inductive WriteFileResult
  | ok (fs : FS) (contents : List Nat) (leftover : List (List Nat))
  | hung (fs : FS) (contents : List Nat) (remaining : Nat)
  | panicked (fs : FS) (contents : List Nat)
deriving DecidableEq

/-- `BasicHttpServer::write_file` (source lines 292-310): create
`dir ++ path`, write the buffered body prefix, then drain the stream until
`content_len` total bytes are on disk. -/
def write_file (path dir contentPre : List Nat) (contentLen : Nat)
    (reads : List (List Nat)) (fs : FS) : WriteFileResult :=
  let key := dir ++ path
  if contentLen < contentPre.length then
    .panicked (fsWrite fs key contentPre) contentPre
  else
    match writeLoop contentPre (contentLen - contentPre.length) reads with
    | .done contents leftover => .ok (fsWrite fs key contents) contents leftover
    | .starved contents remaining =>
      .hung (fsWrite fs key contents) contents remaining

/-- Outcome of the POST arm of the router. -/
inductive PostResult
  | ok (resp : HttpResponse) (fs : FS) (leftover : List (List Nat))
  | hung (fs : FS)
  | panicked (fs : FS)
deriving DecidableEq

/-- The POST arm of the `match` in `BasicHttpServer::handle_request`
(source lines 111-126): no path routing at all — slice `path[6..]`
(panicking when out of range), take the buffered bytes after the head as the
body prefix, and call `write_file`; 201 on success, abort on error. -/
def handle_post (path : List Nat) (bodyOffset bodyLen : Nat) (buf dir : List Nat)
    (reads : List (List Nat)) (fs : FS) : PostResult :=
  let contentPre := buf.drop bodyOffset
  match sliceFrom path 6 with
  | none => .panicked fs
  | some p6 =>
    match write_file p6 dir contentPre bodyLen reads fs with
    | .ok fs' _ leftover => .ok response201 fs' leftover
    | .hung fs' _ _ => .hung fs'
    | .panicked fs' _ => .panicked fs'

/-! ## The connection loop (source lines 52-140) -/

/-- Outcome of the read-and-parse loop of `handle_request`. -/
inductive ReadParseResult
  | blocked
  | peerClosed
  | malformed
  | parsed (pr : ParseResult) (buf : List Nat) (leftover : List (List Nat))
deriving DecidableEq

/-- The inner `loop` of `handle_request` (source lines 59-82): read a chunk,
return on end of stream (`Ok(0)`), then parse the accumulated buffer; keep
reading on a partial parse, abort on a parse error. -/
def readParse (buf : List Nat) : List (List Nat) → ReadParseResult
  | [] => .blocked
  | r :: rest =>
    if r = [] then .peerClosed
    else
      match parse_request (buf ++ r) with
      | .error _ => .malformed
      | .ok none => readParse (buf ++ r) rest
      | .ok (some pr) => .parsed pr (buf ++ r) rest

/-- Outcome of one iteration of the outer `loop` of `handle_request`. -/
inductive IterResult
  | blocked (fs : FS)
  | peerClosed (fs : FS)
  | malformed (fs : FS)
  | panicked (fs : FS)
  | hung (fs : FS)
  | response (r : HttpResponse) (close : Bool) (fs : FS)
      (leftover : List (List Nat))
deriving DecidableEq

/-- One iteration of the outer `loop` of `handle_request`: a fresh buffer,
the read-and-parse loop, then dispatch on the parse result. -/
def handleIter (dir : List Nat) (fs : FS) (reads : List (List Nat)) : IterResult :=
  match readParse [] reads with
  | .blocked => .blocked fs
  | .peerClosed => .peerClosed fs
  | .malformed => .malformed fs
  | .parsed pr buf leftover =>
    match pr with
    | .get close path ua enc =>
      match handle_get path ua enc dir fs with
      | .panicked => .panicked fs
      | .resp r => .response r close fs leftover
    | .post close path off len =>
      match handle_post path off len buf dir leftover fs with
      | .ok r fs' leftover' => .response r close fs' leftover'
      | .hung fs' => .hung fs'
      | .panicked fs' => .panicked fs'

/-- How a connection ended in the model. -/
inductive ConnEnd
  | peerClosed
  | malformed
  | panicked
  | hung
  | blocked
  | closedByServer
  | fuelOut
deriving DecidableEq

/-- Fuel-indexed connection loop: returns the serialized responses written to
the peer in order, the final filesystem, and how the connection ended.
After a response, `Connection: close` returns from the loop; otherwise the
next request is awaited on the same stream. -/
def connLoopF (dir : List Nat) : Nat → FS → List (List Nat) →
    List (List Nat) × FS × ConnEnd
  | 0, fs, _ => ([], fs, .fuelOut)
  | fuel + 1, fs, reads =>
    match handleIter dir fs reads with
    | .blocked fs' => ([], fs', .blocked)
    | .peerClosed fs' => ([], fs', .peerClosed)
    | .malformed fs' => ([], fs', .malformed)
    | .panicked fs' => ([], fs', .panicked)
    | .hung fs' => ([], fs', .hung)
    | .response r close fs' leftover =>
      if close then ([serialize_response r], fs', .closedByServer)
      else
        let res := connLoopF dir fuel fs' leftover
        (serialize_response r :: res.1, res.2)

/-- `BasicHttpServer::handle_request`'s outer loop over a whole read trace:
one iteration consumes at least one read, so `reads.length + 1` fuel always
suffices (see `connLoopF_fuel_irrel`). -/
def connLoop (dir : List Nat) (fs : FS) (reads : List (List Nat)) :
    List (List Nat) × FS × ConnEnd :=
  connLoopF dir (reads.length + 1) fs reads

example :
    connLoop [] [] [strBytes "GET / HTTP/1.1\r\nConnection: close\r\n\r\n"]
      = ([serialize_response (response200pt [] none)], [], .closedByServer) := rfl
example :
    connLoop [] [] [strBytes "GET / HTTP/1.1\r\n\r\n",
        strBytes "GET /user-agent HTTP/1.1\r\nUser-Agent: foo/1.0\r\n\r\n"]
      = ([serialize_response (response200pt [] none),
          serialize_response (response200pt (strBytes "foo/1.0") none)],
         [], .blocked) := rfl
example :
    connLoop (strBytes "d") []
      [strBytes "POST /files/a HTTP/1.1\r\nContent-Length: 3\r\n\r\nx", [121, 122]]
      = ([serialize_response response201],
         [(strBytes "d/a", strBytes "xyz")], .blocked) := rfl

/-! ## Loop bookkeeping lemmas -/

theorem readParse_leftover :
    ∀ (reads : List (List Nat)) (buf : List Nat) {pr b l},
      readParse buf reads = .parsed pr b l → l.length < reads.length := by
  intro reads
  induction reads with
  | nil => intro buf pr b l h; simp [readParse] at h
  | cons r rest ih =>
    intro buf pr b l h
    simp only [readParse] at h
    by_cases hr : r = []
    · rw [if_pos hr] at h; cases h
    · rw [if_neg hr] at h
      cases hp : parse_request (buf ++ r) with
      | error e => rw [hp] at h; cases h
      | ok o =>
        rw [hp] at h
        cases o with
        | none => exact Nat.lt_succ_of_lt (ih _ h)
        | some pr' => cases h; simp

theorem writeLoop_leftover :
    ∀ (reads : List (List Nat)) (acc : List Nat) (rem : Nat) {c l},
      writeLoop acc rem reads = .done c l → l.length ≤ reads.length := by
  intro reads
  induction reads with
  | nil =>
    intro acc rem c l h
    simp only [writeLoop] at h
    by_cases hr : rem = 0
    · rw [if_pos hr] at h; cases h; simp
    · rw [if_neg hr] at h; cases h
  | cons r rest ih =>
    intro acc rem c l h
    simp only [writeLoop] at h
    by_cases hr : rem = 0
    · rw [if_pos hr] at h; cases h; simp
    · rw [if_neg hr] at h
      exact Nat.le_succ_of_le (ih _ _ h)

theorem write_file_leftover {path dir pre : List Nat} {len : Nat}
    {reads : List (List Nat)} {fs fs' : FS} {c : List Nat} {l : List (List Nat)}
    (h : write_file path dir pre len reads fs = .ok fs' c l) :
    l.length ≤ reads.length := by
  simp only [write_file] at h
  split at h
  · cases h
  · split at h
    · rename_i c' l' hw
      cases h
      exact writeLoop_leftover _ _ _ hw
    · cases h

theorem handleIter_leftover {dir : List Nat} {fs fs' : FS}
    {reads l : List (List Nat)} {r : HttpResponse} {close : Bool}
    (h : handleIter dir fs reads = .response r close fs' l) :
    l.length < reads.length := by
  unfold handleIter at h
  split at h
  · cases h
  · cases h
  · cases h
  · rename_i pr buf leftover hp
    have hlt := readParse_leftover reads [] hp
    split at h
    · split at h
      · cases h
      · cases h
        exact hlt
    · split at h
      · rename_i r' fs'' leftover' hpo
        cases h
        simp only [handle_post] at hpo
        split at hpo
        · cases hpo
        · split at hpo
          · rename_i fsw cw lw hw
            cases hpo
            exact Nat.lt_of_le_of_lt (write_file_leftover hw) hlt
          · cases hpo
          · cases hpo
      · cases h
      · cases h

theorem connLoopF_fuel_irrel (dir : List Nat) :
    ∀ (fuel fuel' : Nat) (fs : FS) (reads : List (List Nat)),
      reads.length < fuel → reads.length < fuel' →
      connLoopF dir fuel fs reads = connLoopF dir fuel' fs reads := by
  intro fuel
  induction fuel with
  | zero =>
    intro fuel' fs reads h h'
    exact absurd h (Nat.not_lt_zero _)
  | succ fuel ih =>
    intro fuel' fs reads h h'
    cases fuel' with
    | zero => exact absurd h' (Nat.not_lt_zero _)
    | succ fuel' =>
      simp only [connLoopF]
      cases hi : handleIter dir fs reads with
      | blocked fs' => rfl
      | peerClosed fs' => rfl
      | malformed fs' => rfl
      | panicked fs' => rfl
      | hung fs' => rfl
      | response r close fs' leftover =>
        cases close with
        | true => rfl
        | false =>
          have hlen := handleIter_leftover hi
          have hrec := ih fuel' fs' leftover (by omega) (by omega)
          show (serialize_response r :: (connLoopF dir fuel fs' leftover).1,
              (connLoopF dir fuel fs' leftover).2)
            = (serialize_response r :: (connLoopF dir fuel' fs' leftover).1,
              (connLoopF dir fuel' fs' leftover).2)
          rw [hrec]

theorem connLoop_step_close {dir : List Nat} {fs fs' : FS}
    {reads l : List (List Nat)} {r : HttpResponse}
    (h : handleIter dir fs reads = .response r true fs' l) :
    connLoop dir fs reads = ([serialize_response r], fs', .closedByServer) := by
  simp [connLoop, connLoopF, h]

theorem connLoop_step_keep {dir : List Nat} {fs fs' : FS}
    {reads l : List (List Nat)} {r : HttpResponse}
    (h : handleIter dir fs reads = .response r false fs' l) :
    connLoop dir fs reads
      = (serialize_response r :: (connLoop dir fs' l).1, (connLoop dir fs' l).2) := by
  have hlen := handleIter_leftover h
  have step : connLoopF dir (reads.length + 1) fs reads
      = (serialize_response r :: (connLoopF dir reads.length fs' l).1,
        (connLoopF dir reads.length fs' l).2) := by
    simp [connLoopF, h]
  show connLoopF dir (reads.length + 1) fs reads = _
  rw [step, connLoopF_fuel_irrel dir reads.length (l.length + 1) fs' l
    (by omega) (by omega)]
  rfl

theorem connLoop_step_malformed {dir : List Nat} {fs : FS}
    {reads : List (List Nat)} (h : readParse [] reads = .malformed) :
    connLoop dir fs reads = ([], fs, .malformed) := by
  simp [connLoop, connLoopF, handleIter, h]

/-! ## Exact body delivery -/

/-- `validDelivery rem reads` states that the read trace `reads` supplies
exactly `rem` more body bytes: every read returns at least one byte, never
more than the read buffer (`min rem 65536`) holds, and the trace ends exactly
when the declared length is reached. -/
def validDelivery : Nat → List (List Nat) → Bool
  | rem, [] => rem == 0
  | rem, c :: rest =>
    rem != 0 && c.length != 0 && decide (c.length ≤ min rem 65536)
      && validDelivery (rem - c.length) rest

theorem validDelivery_writeLoop :
    ∀ (reads : List (List Nat)) (rem : Nat) (acc : List Nat),
      validDelivery rem reads = true →
      writeLoop acc rem reads = .done (acc ++ reads.flatten) [] := by
  intro reads
  induction reads with
  | nil =>
    intro rem acc h
    simp only [validDelivery, beq_iff_eq] at h
    simp [writeLoop, h]
  | cons c rest ih =>
    intro rem acc h
    simp only [validDelivery, Bool.and_eq_true, ne_eq, bne_iff_ne,
      decide_eq_true_eq] at h
    obtain ⟨⟨⟨hrem, hc⟩, hle⟩, hrest⟩ := h
    simp only [writeLoop, if_neg hrem]
    have htake : c.take (min rem 65536) = c := List.take_of_length_le hle
    rw [htake, ih _ _ hrest]
    simp

theorem validDelivery_length :
    ∀ (reads : List (List Nat)) (rem : Nat),
      validDelivery rem reads = true → reads.flatten.length = rem := by
  intro reads
  induction reads with
  | nil => intro rem h; simp only [validDelivery, beq_iff_eq] at h; simp [h]
  | cons c rest ih =>
    intro rem h
    simp only [validDelivery, Bool.and_eq_true, ne_eq, bne_iff_ne,
      decide_eq_true_eq] at h
    obtain ⟨⟨⟨hrem, hc⟩, hle⟩, hrest⟩ := h
    have := ih _ hrest
    simp only [List.flatten_cons, List.length_append, this]
    omega

/-- A zero-length read leaves the drain loop's state unchanged, so once the
peer has closed its end (every further read returns zero bytes) the loop
never terminates: after any number `k` of further reads it is still owed the
same `rem` bytes. -/
theorem writeLoop_zero_reads (acc : List Nat) (rem : Nat) (h : rem ≠ 0) :
    ∀ k, writeLoop acc rem (List.replicate k []) = .starved acc rem := by
  intro k
  induction k with
  | zero => simp [writeLoop, h]
  | succ k ih =>
    simp only [List.replicate, writeLoop, if_neg h, List.take_nil,
      List.append_nil, List.length_nil, Nat.sub_zero]
    exact ih

/-! ## Head-terminator scanning lemmas -/

/-- The head terminator occurs in `l` at offset `i`. -/
def termAt (l : List Nat) (i : Nat) : Prop :=
  (l.drop i).take 4 = [13, 10, 13, 10]

theorem take4_cons_ne {a : Nat} (l : List Nat) (ha : a ≠ 13) :
    ¬ ((a :: l).take 4 = [13, 10, 13, 10]) := by
  intro hc
  rw [show (a :: l).take 4 = a :: l.take 3 from rfl] at hc
  injection hc with h1 _
  exact ha h1

theorem findTerm_some :
    ∀ (l : List Nat) (j : Nat), findTerm l = some j →
      termAt l j ∧ ∀ i, i < j → ¬ termAt l i := by
  intro l
  induction l with
  | nil => intro j h; cases h
  | cons x rest ih =>
    intro j h
    simp only [findTerm] at h
    split at h
    · rename_i htake
      injection h with h'
      subst h'
      refine ⟨htake, ?_⟩
      intro i hi
      exact absurd hi (Nat.not_lt_zero _)
    · rename_i htake
      cases hr : findTerm rest with
      | none => rw [hr] at h; cases h
      | some j' =>
        rw [hr] at h
        rw [show Option.map (· + 1) (some j') = some (j' + 1) from rfl] at h
        injection h with h'
        subst h'
        obtain ⟨h1, h2⟩ := ih j' hr
        refine ⟨?_, ?_⟩
        · show ((x :: rest).drop (j' + 1)).take 4 = _
          rw [List.drop_succ_cons]
          exact h1
        · intro i hi
          cases i with
          | zero => exact fun hc => htake hc
          | succ i' =>
            intro hc
            exact h2 i' (by omega) (by
              show (rest.drop i').take 4 = _
              rw [← List.drop_succ_cons (a := x)]
              exact hc)

theorem findTerm_none :
    ∀ (l : List Nat), findTerm l = none → ∀ i, ¬ termAt l i := by
  intro l
  induction l with
  | nil =>
    intro _ i hc
    simp [termAt] at hc
  | cons x rest ih =>
    intro h i hc
    simp only [findTerm] at h
    split at h
    · cases h
    · rename_i htake
      cases hr : findTerm rest with
      | some j' => rw [hr] at h; cases h
      | none =>
        cases i with
        | zero => exact htake hc
        | succ i' =>
          exact ih hr i' (by
            show (rest.drop i').take 4 = _
            rw [← List.drop_succ_cons (a := x)]
            exact hc)

theorem termAt_length {l : List Nat} {i : Nat} (h : termAt l i) :
    i + 4 ≤ l.length := by
  have := congrArg List.length h
  simp [List.length_take, List.length_drop] at this
  omega

theorem termAt_of_append {pre t : List Nat} {i : Nat} (h : termAt pre i) :
    termAt (pre ++ t) i := by
  have hb := termAt_length h
  unfold termAt at h ⊢
  rw [List.drop_append_eq_append_drop,
    show i - pre.length = 0 from by omega, List.drop_zero,
    List.take_append_eq_append_take,
    show 4 - (pre.drop i).length = 0 from by
      simp [List.length_drop]; omega,
    List.take_zero, List.append_nil]
  exact h

theorem findTerm_of_proper_head {l pre t : List Nat}
    (hl : findTerm l = some (l.length - 4)) (hpt : pre ++ t = l) (ht : t ≠ []) :
    findTerm pre = none := by
  cases hp : findTerm pre with
  | none => rfl
  | some i =>
    exfalso
    obtain ⟨h1, _⟩ := findTerm_some pre i hp
    have hb := termAt_length h1
    have h2 : termAt l i := hpt ▸ termAt_of_append h1
    obtain ⟨_, hl2⟩ := findTerm_some l _ hl
    have hlen : pre.length + t.length = l.length := by
      rw [← hpt]; simp
    have htl : 1 ≤ t.length := List.length_pos.mpr ht
    exact hl2 i (by omega) h2

theorem findTerm_append_no13 :
    ∀ (l s : List Nat), (∀ b ∈ l, b ≠ 13) →
      findTerm (l ++ s) = (findTerm s).map (· + l.length) := by
  intro l
  induction l with
  | nil =>
    intro s _
    cases hfs : findTerm s <;> simp [hfs]
  | cons a l ih =>
    intro s h
    have ha : a ≠ 13 := h a (by simp)
    simp only [List.cons_append, findTerm]
    rw [if_neg (take4_cons_ne _ ha)]
    simp only [List.append_eq]
    rw [ih s (fun b hb => h b (by simp [hb]))]
    cases hfs : findTerm s <;> (simp [hfs]; try omega)

theorem findTerm_crlf_step {s : List Nat}
    (hs : ∀ b, s.head? = some b → b ≠ 13) :
    findTerm (13 :: 10 :: s) = (findTerm s).map (· + 2) := by
  cases s with
  | nil => rfl
  | cons b s' =>
    have hb : b ≠ 13 := hs b rfl
    have h4 : ¬ ((13 :: 10 :: b :: s').take 4 = [13, 10, 13, 10]) := by
      intro hc
      rw [show (13 :: 10 :: b :: s').take 4 = 13 :: 10 :: b :: s'.take 1 from rfl] at hc
      injection hc with _ hc
      injection hc with _ hc
      injection hc with h3 _
      exact hb h3
    simp only [findTerm, if_neg h4,
      if_neg (take4_cons_ne (b :: s') (by omega : (10:Nat) ≠ 13)),
      if_neg (take4_cons_ne s' hb)]
    cases hfs : findTerm s' <;> simp [hfs]

/-! ## Encoding a well-formed request head -/

/-- The wire form of a head given as a list of lines: each line followed by
`\x0d\x0a`, then the terminating blank line. -/
def encLines : List (List Nat) → List Nat
  | [] => [13, 10]
  | l :: ls => l ++ [13, 10] ++ encLines ls

/-- The lines joined by `\x0d\x0a`, without the trailing terminator. -/
def icLines : List (List Nat) → List Nat
  | [] => []
  | [l] => l
  | l :: l' :: ls => l ++ [13, 10] ++ icLines (l' :: ls)

theorem encLines_eq_ic :
    ∀ ls : List (List Nat), ls ≠ [] →
      encLines ls = icLines ls ++ [13, 10, 13, 10] := by
  intro ls
  induction ls with
  | nil => intro h; exact absurd rfl h
  | cons l ls ih =>
    intro _
    cases ls with
    | nil => simp [encLines, icLines]
    | cons l' ls' =>
      show l ++ [13, 10] ++ encLines (l' :: ls') = _
      rw [ih (by simp)]
      simp [icLines, List.append_assoc]

theorem encLines_length_ge4 (ls : List (List Nat)) (h : ls ≠ []) :
    4 ≤ (encLines ls).length := by
  rw [encLines_eq_ic ls h]
  simp

theorem encLines_head {l' : List Nat} {ls' : List (List Nat)} (hne : l' ≠ []) :
    (encLines (l' :: ls')).head? = l'.head? := by
  cases l' with
  | nil => exact absurd rfl hne
  | cons c t => simp [encLines]

theorem findTerm_encLines :
    ∀ ls : List (List Nat), ls ≠ [] →
      (∀ l ∈ ls, l ≠ [] ∧ ∀ b ∈ l, b ≠ 13) →
      findTerm (encLines ls) = some ((encLines ls).length - 4) := by
  intro ls
  induction ls with
  | nil => intro h; exact absurd rfl h
  | cons l ls ih =>
    intro _ hw
    obtain ⟨hl, hl13⟩ := hw l (by simp)
    cases ls with
    | nil =>
      have he : encLines [l] = l ++ [13, 10, 13, 10] := by simp [encLines]
      rw [he, findTerm_append_no13 l _ hl13,
        show findTerm [13, 10, 13, 10] = some 0 from rfl]
      simp
    | cons l' ls' =>
      obtain ⟨hl', _⟩ := hw l' (by simp)
      have hrec := ih (by simp) (fun x hx => hw x (by simp [hx]))
      have hlen4 := encLines_length_ge4 (l' :: ls') (by simp)
      have hhead : ∀ b, (encLines (l' :: ls')).head? = some b → b ≠ 13 := by
        intro b hb
        rw [encLines_head hl'] at hb
        have hmem : b ∈ l' := by
          cases l' with
          | nil => cases hb
          | cons c t =>
            simp only [List.head?_cons] at hb
            injection hb with hb
            subst hb
            simp
        exact (hw l' (by simp)).2 b hmem
      rw [show encLines (l :: l' :: ls') = l ++ (13 :: 10 :: encLines (l' :: ls'))
          from by simp [encLines],
        findTerm_append_no13 l _ hl13, findTerm_crlf_step hhead, hrec]
      simp [List.length_append]
      omega

/-! ## Line-splitting round-trip lemmas -/

theorem splitSP_no32 :
    ∀ l : List Nat, (∀ b ∈ l, b ≠ 32) → splitSP l = [l] := by
  intro l
  induction l with
  | nil => intro _; rfl
  | cons a l ih =>
    intro h
    have ha : a ≠ 32 := h a (by simp)
    simp only [splitSP, if_neg ha]
    rw [ih (fun b hb => h b (by simp [hb]))]
    rfl

theorem splitSP_append :
    ∀ l r : List Nat, (∀ b ∈ l, b ≠ 32) →
      splitSP (l ++ 32 :: r) = l :: splitSP r := by
  intro l
  induction l with
  | nil =>
    intro r _
    show splitSP (32 :: r) = [] :: splitSP r
    simp [splitSP]
  | cons a l ih =>
    intro r h
    have ha : a ≠ 32 := h a (by simp)
    simp only [List.cons_append, splitSP, if_neg ha, List.append_eq]
    rw [ih r (fun b hb => h b (by simp [hb]))]
    rfl

theorem splitCRLF_no13 :
    ∀ l : List Nat, (∀ b ∈ l, b ≠ 13) → splitCRLF l = [l] := by
  intro l
  induction l with
  | nil => intro _; rfl
  | cons a l ih =>
    intro h
    cases l with
    | nil => rfl
    | cons y rest =>
      have ha : a ≠ 13 := h a (by simp)
      have hcond : ¬ (a = 13 ∧ y = 10) := fun hc => ha hc.1
      simp only [splitCRLF, if_neg hcond]
      rw [ih (fun b hb => h b (by simp [hb]))]
      rfl

theorem splitCRLF_append :
    ∀ l r : List Nat, (∀ b ∈ l, b ≠ 13) →
      splitCRLF (l ++ 13 :: 10 :: r) = l :: splitCRLF r := by
  intro l
  induction l with
  | nil =>
    intro r _
    show splitCRLF (13 :: 10 :: r) = [] :: splitCRLF r
    simp [splitCRLF]
  | cons a l ih =>
    intro r h
    have ha : a ≠ 13 := h a (by simp)
    cases l with
    | nil =>
      have hcond : ¬ (a = 13 ∧ (13 : Nat) = 10) := fun hc => ha hc.1
      show splitCRLF (a :: 13 :: 10 :: r) = [a] :: splitCRLF r
      rw [show splitCRLF (a :: 13 :: 10 :: r)
            = consHead a (splitCRLF (13 :: 10 :: r)) from by
          simp only [splitCRLF, if_neg hcond],
        show splitCRLF (13 :: 10 :: r) = [] :: splitCRLF r from by
          simp [splitCRLF]]
      rfl
    | cons b l' =>
      have hcond : ¬ (a = 13 ∧ b = 10) := fun hc => ha hc.1
      simp only [List.cons_append]
      rw [show splitCRLF (a :: b :: (l' ++ 13 :: 10 :: r))
            = consHead a (splitCRLF (b :: (l' ++ 13 :: 10 :: r))) from by
          simp only [splitCRLF, if_neg hcond]]
      have hrec := ih r (fun x hx => h x (by simp [hx]))
      simp only [List.cons_append] at hrec
      rw [hrec]
      rfl

theorem splitCRLF_icLines :
    ∀ ls : List (List Nat), ls ≠ [] → (∀ l ∈ ls, ∀ b ∈ l, b ≠ 13) →
      splitCRLF (icLines ls) = ls := by
  intro ls
  induction ls with
  | nil => intro h; exact absurd rfl h
  | cons l ls ih =>
    intro _ h
    cases ls with
    | nil => exact splitCRLF_no13 l (h l (by simp))
    | cons l' ls' =>
      show splitCRLF (l ++ [13, 10] ++ icLines (l' :: ls')) = l :: l' :: ls'
      rw [List.append_assoc,
        show [13, 10] ++ icLines (l' :: ls') = 13 :: 10 :: icLines (l' :: ls')
          from rfl,
        splitCRLF_append l _ (h l (by simp)),
        ih (by simp) (fun x hx => h x (by simp [hx]))]

theorem splitColon_append :
    ∀ n r : List Nat, (∀ b ∈ n, b ≠ 58) →
      splitColon (n ++ 58 :: r) = some (n, r) := by
  intro n
  induction n with
  | nil => intro r _; rfl
  | cons a nn ih =>
    intro r h
    have ha : a ≠ 58 := h a (by simp)
    simp only [List.cons_append, splitColon, if_neg ha, List.append_eq]
    rw [ih r (fun b hb => h b (by simp [hb]))]
    rfl

theorem dropWS_space_cons (v : List Nat)
    (hv : ∀ b, v.head? = some b → b ≠ 32 ∧ b ≠ 9) :
    dropWS (32 :: v) = v := by
  cases v with
  | nil => rfl
  | cons b v' =>
    obtain ⟨h32, h9⟩ := hv b rfl
    simp [dropWS, List.dropWhile_cons, h32, h9]

/-! ## Encoding a whole head and parsing it back -/

/-- The request line `METHOD SP PATH SP HTTP/1.1`. -/
def reqLine (m p : List Nat) : List Nat := m ++ [32] ++ (p ++ [32] ++ HTTP11)

/-- One header line `name: value` (without the trailing `\x0d\x0a`). -/
def headerLine (h : List Nat × List Nat) : List Nat := h.1 ++ [58, 32] ++ h.2

/-- The full wire form of a request head. -/
def encodeHead (m p : List Nat) (hs : List (List Nat × List Nat)) : List Nat :=
  encLines (reqLine m p :: hs.map headerLine)

/-- Well-formedness of an abstract request head: non-empty printable method
and path tokens, at most 16 headers (the parser's header array), non-empty
colon-free header names, printable header values not starting with a space. -/
def wfHead (m p : List Nat) (hs : List (List Nat × List Nat)) : Prop :=
  m ≠ [] ∧ m.all tokenByte = true ∧ p ≠ [] ∧ p.all tokenByte = true ∧
  hs.length ≤ 16 ∧
  ∀ h ∈ hs, h.1 ≠ [] ∧ h.1.all nameByte = true ∧
    h.2.all (fun b => 32 ≤ b && b ≤ 126) = true ∧
    h.2.head? ≠ some 32

instance wfHeadDecidable (m p : List Nat) (hs : List (List Nat × List Nat)) :
    Decidable (wfHead m p hs) := by
  unfold wfHead
  infer_instance

theorem tokenByte_bounds {l : List Nat} (h : l.all tokenByte = true) :
    ∀ b ∈ l, 33 ≤ b ∧ b ≤ 126 := by
  intro b hb
  have := List.all_eq_true.mp h b hb
  simp only [tokenByte, Bool.and_eq_true, decide_eq_true_eq] at this
  exact this

theorem nameByte_bounds {l : List Nat} (h : l.all nameByte = true) :
    ∀ b ∈ l, (33 ≤ b ∧ b ≤ 126) ∧ b ≠ 58 := by
  intro b hb
  have := List.all_eq_true.mp h b hb
  simp only [nameByte, Bool.and_eq_true, decide_eq_true_eq, bne_iff_ne,
    ne_eq] at this
  exact this

theorem valueByte_bounds {l : List Nat}
    (h : l.all (fun b => 32 ≤ b && b ≤ 126) = true) :
    ∀ b ∈ l, 32 ≤ b ∧ b ≤ 126 := by
  intro b hb
  have := List.all_eq_true.mp h b hb
  simp only [Bool.and_eq_true, decide_eq_true_eq] at this
  exact this

theorem HTTP11_no13 : ∀ b ∈ HTTP11, b ≠ 13 := by decide

theorem HTTP11_no32 : ∀ b ∈ HTTP11, b ≠ 32 := by decide

theorem reqLine_no13 {m p : List Nat} (hm : m.all tokenByte = true)
    (hp : p.all tokenByte = true) : ∀ b ∈ reqLine m p, b ≠ 13 := by
  intro b hb
  simp only [reqLine, List.mem_append, List.mem_singleton] at hb
  rcases hb with (hb | hb) | (hb | hb) | hb
  · have := tokenByte_bounds hm b hb; omega
  · omega
  · have := tokenByte_bounds hp b hb; omega
  · omega
  · exact HTTP11_no13 b hb

theorem headerLine_no13 {h : List Nat × List Nat}
    (hn : h.1.all nameByte = true)
    (hv : h.2.all (fun b => 32 ≤ b && b ≤ 126) = true) :
    ∀ b ∈ headerLine h, b ≠ 13 := by
  intro b hb
  simp only [headerLine, List.mem_append, List.mem_cons,
    List.mem_singleton, List.not_mem_nil] at hb
  rcases hb with (hb | (hb | hb | hb)) | hb
  · have := nameByte_bounds hn b hb; omega
  · omega
  · omega
  · exact absurd hb (by simp)
  · have := valueByte_bounds hv b hb; omega

theorem parseHeaderLine_encode {n v : List Nat}
    (hn : n ≠ []) (hname : n.all nameByte = true)
    (hv : ∀ b, v.head? = some b → b ≠ 32 ∧ b ≠ 9) :
    parseHeaderLine (n ++ [58, 32] ++ v) = some (n, v) := by
  have hcolon : ∀ b ∈ n, b ≠ 58 := fun b hb => (nameByte_bounds hname b hb).2
  rw [show n ++ [58, 32] ++ v = n ++ 58 :: (32 :: v) from by simp]
  simp only [parseHeaderLine, splitColon_append n (32 :: v) hcolon]
  rw [dropWS_space_cons v hv]
  simp [hn, hname]

theorem parseHeaderLines_encode :
    ∀ hs : List (List Nat × List Nat),
      (∀ h ∈ hs, h.1 ≠ [] ∧ h.1.all nameByte = true ∧
        (∀ b, h.2.head? = some b → b ≠ 32 ∧ b ≠ 9)) →
      parseHeaderLines (hs.map headerLine) = some hs := by
  intro hs
  induction hs with
  | nil => intro _; rfl
  | cons h hs ih =>
    intro hw
    obtain ⟨h1, h2, h3⟩ := hw h (by simp)
    simp only [List.map_cons, parseHeaderLines,
      show headerLine h = h.1 ++ [58, 32] ++ h.2 from rfl,
      parseHeaderLine_encode h1 h2 h3]
    rw [ih (fun x hx => hw x (by simp [hx]))]
    rfl

theorem splitSP_reqLine {m p : List Nat} (hm : m.all tokenByte = true)
    (hp : p.all tokenByte = true) :
    splitSP (reqLine m p) = [m, p, HTTP11] := by
  have hm32 : ∀ b ∈ m, b ≠ 32 := fun b hb => by
    have := tokenByte_bounds hm b hb; omega
  have hp32 : ∀ b ∈ p, b ≠ 32 := fun b hb => by
    have := tokenByte_bounds hp b hb; omega
  rw [show reqLine m p = m ++ 32 :: (p ++ 32 :: HTTP11) from by simp [reqLine],
    splitSP_append m _ hm32, splitSP_append p _ hp32,
    splitSP_no32 HTTP11 HTTP11_no32]

theorem parseHead_noTerm {buf : List Nat} (h : findTerm buf = none) :
    parseHead buf = .ok none := by
  simp [parseHead, h]

theorem parseHead_encodeHead {m p : List Nat} {hs : List (List Nat × List Nat)}
    (hwf : wfHead m p hs) :
    parseHead (encodeHead m p hs)
      = .ok (some ⟨m, p, hs, (encodeHead m p hs).length⟩) := by
  obtain ⟨hm, hmt, hp, hpt, h16, hhs⟩ := hwf
  have hrl_ne : reqLine m p ≠ [] := by
    intro hnil
    have := congrArg List.length hnil
    simp [reqLine] at this
  have hln : ∀ l ∈ reqLine m p :: hs.map headerLine,
      l ≠ [] ∧ ∀ b ∈ l, b ≠ 13 := by
    intro l hl
    rcases List.mem_cons.mp hl with rfl | hl
    · exact ⟨hrl_ne, reqLine_no13 hmt hpt⟩
    · obtain ⟨h, hh, rfl⟩ := List.mem_map.mp hl
      obtain ⟨h1, h2, h3, _⟩ := hhs h hh
      refine ⟨?_, headerLine_no13 h2 h3⟩
      intro hnil
      have := congrArg List.length hnil
      simp [headerLine] at this
  have hterm := findTerm_encLines _ (by simp) hln
  have hic := encLines_eq_ic (reqLine m p :: hs.map headerLine) (by simp)
  have hlen : (encLines (reqLine m p :: hs.map headerLine)).length
      = (icLines (reqLine m p :: hs.map headerLine)).length + 4 := by
    rw [hic]; simp
  have htake : (encLines (reqLine m p :: hs.map headerLine)).take
      ((encLines (reqLine m p :: hs.map headerLine)).length - 4)
      = icLines (reqLine m p :: hs.map headerLine) := by
    rw [show (encLines (reqLine m p :: hs.map headerLine)).length - 4
        = (icLines (reqLine m p :: hs.map headerLine)).length from by omega,
      hic, List.take_left]
  have hsplit := splitCRLF_icLines (reqLine m p :: hs.map headerLine)
    (by simp) (fun l hl => (hln l hl).2)
  have hhl : ∀ h ∈ hs, h.1 ≠ [] ∧ h.1.all nameByte = true ∧
      (∀ b, h.2.head? = some b → b ≠ 32 ∧ b ≠ 9) := by
    intro h hh
    obtain ⟨h1, h2, h3, h4⟩ := hhs h hh
    refine ⟨h1, h2, ?_⟩
    intro b hb
    have hmem : b ∈ h.2 := by
      cases hv : h.2 with
      | nil => rw [hv] at hb; cases hb
      | cons c t =>
        rw [hv] at hb
        simp only [List.head?_cons] at hb
        injection hb with hb
        subst hb
        simp
    have hbd := valueByte_bounds h3 b hmem
    constructor
    · intro h32
      rw [h32] at hb
      exact h4 hb
    · omega
  have h4le := encLines_length_ge4
    (reqLine m p :: hs.map headerLine) (by simp)
  show parseHead (encLines (reqLine m p :: hs.map headerLine)) = _
  rw [show parseHead (encLines (reqLine m p :: hs.map headerLine))
      = parseHeadCore
          ((encLines (reqLine m p :: hs.map headerLine)).take
            ((encLines (reqLine m p :: hs.map headerLine)).length - 4))
          (((encLines (reqLine m p :: hs.map headerLine)).length - 4) + 4)
      from by simp only [parseHead, hterm]]
  rw [htake]
  simp only [parseHeadCore, hsplit, splitSP_reqLine hmt hpt]
  rw [if_pos ⟨hm, hmt, hp, hpt, trivial, by simpa using h16⟩]
  simp only [parseHeaderLines_encode hs hhl]
  rw [show ((encLines (reqLine m p :: hs.map headerLine)).length - 4) + 4
      = (encLines (reqLine m p :: hs.map headerLine)).length from by omega]
  rfl

theorem findTerm_encodeHead {m p : List Nat} {hs : List (List Nat × List Nat)}
    (hwf : wfHead m p hs) :
    findTerm (encodeHead m p hs) = some ((encodeHead m p hs).length - 4) := by
  obtain ⟨hm, hmt, hp, hpt, h16, hhs⟩ := hwf
  have hrl_ne : reqLine m p ≠ [] := by
    intro hnil
    have := congrArg List.length hnil
    simp [reqLine] at this
  have hln : ∀ l ∈ reqLine m p :: hs.map headerLine,
      l ≠ [] ∧ ∀ b ∈ l, b ≠ 13 := by
    intro l hl
    rcases List.mem_cons.mp hl with rfl | hl
    · exact ⟨hrl_ne, reqLine_no13 hmt hpt⟩
    · obtain ⟨h, hh, rfl⟩ := List.mem_map.mp hl
      obtain ⟨h1, h2, h3, _⟩ := hhs h hh
      refine ⟨?_, headerLine_no13 h2 h3⟩
      intro hnil
      have := congrArg List.length hnil
      simp [headerLine] at this
  exact findTerm_encLines _ (by simp) hln

theorem parseHead_proper_head {m p : List Nat} {hs : List (List Nat × List Nat)}
    (hwf : wfHead m p hs) {pre t : List Nat}
    (hpt : pre ++ t = encodeHead m p hs) (ht : t ≠ []) :
    parseHead pre = .ok none :=
  parseHead_noTerm (findTerm_of_proper_head (findTerm_encodeHead hwf) hpt ht)

/-! ## Dispatch helper lemmas -/

theorem fsRead_fsWrite (fs : FS) (k v : List Nat) :
    fsRead (fsWrite fs k v) k = some v := by
  simp [fsRead, fsWrite]

theorem lowerB_append (a b : List Nat) : lowerB (a ++ b) = lowerB a ++ lowerB b := by
  simp [lowerB]

theorem handle_get_echo {rest : List Nat} (hrest : ∀ b ∈ rest, b < 128)
    (ua : Option (List Nat)) (enc : Option HttpEncoding) (dir : List Nat)
    (fs : FS) :
    handle_get (strBytes "/echo/" ++ rest) ua enc dir fs
      = .resp (response200pt rest enc) := by
  have hne : ¬ (strBytes "/echo/" ++ rest = strBytes "/") := by
    intro hc
    have := congrArg List.length hc
    rw [List.length_append,
      show (strBytes "/echo/").length = 6 from rfl,
      show (strBytes "/").length = 1 from rfl] at this
    omega
  have hlw : lowerB (strBytes "/echo/" ++ rest)
      = strBytes "/echo/" ++ lowerB rest := by
    rw [lowerB_append, show lowerB (strBytes "/echo/") = strBytes "/echo/" from rfl]
  have hstart : startsWithB (lowerB (strBytes "/echo/" ++ rest))
      (strBytes "/echo") = true := by
    rw [hlw]; rfl
  have hslice : sliceFrom (strBytes "/echo/" ++ rest) 6 = some rest := by
    unfold sliceFrom
    rw [if_pos (by
      rw [List.length_append, show (strBytes "/echo/").length = 6 from rfl]
      omega)]
    rw [show (strBytes "/echo/" ++ rest).drop 6 = rest from rfl]
    cases rest with
    | nil => rfl
    | cons b r' =>
      have hb := hrest b (by simp)
      simp only [List.head?_cons]
      rw [if_neg (by omega)]
  unfold handle_get
  rw [if_neg hne, if_pos hstart, hslice]

theorem sliceFrom_files (name : List Nat) :
    sliceFrom (strBytes "/files/" ++ name) 6 = some (47 :: name) := by
  unfold sliceFrom
  rw [if_pos (by
    rw [List.length_append, show (strBytes "/files/").length = 7 from rfl]
    omega)]
  rw [show (strBytes "/files/" ++ name).drop 6 = 47 :: name from rfl]
  simp only [List.head?_cons]
  rw [if_neg (by omega)]

theorem handle_get_files (name : List Nat) (ua : Option (List Nat))
    (enc : Option HttpEncoding) (dir : List Nat) (fs : FS) :
    handle_get (strBytes "/files/" ++ name) ua enc dir fs
      = match fsRead fs (dir ++ (47 :: name)) with
        | some c => .resp (response200bin c)
        | none => .resp response404 := by
  have hne : ¬ (strBytes "/files/" ++ name = strBytes "/") := by
    intro hc
    have := congrArg List.length hc
    rw [List.length_append,
      show (strBytes "/files/").length = 7 from rfl,
      show (strBytes "/").length = 1 from rfl] at this
    omega
  have hlw : lowerB (strBytes "/files/" ++ name)
      = strBytes "/files/" ++ lowerB name := by
    rw [lowerB_append, show lowerB (strBytes "/files/") = strBytes "/files/" from rfl]
  have hecho : startsWithB (lowerB (strBytes "/files/" ++ name))
      (strBytes "/echo") = false := by
    rw [hlw]; rfl
  have hua : ¬ (lowerB (strBytes "/files/" ++ name) = strBytes "/user-agent") := by
    rw [hlw]
    intro hc
    rw [show strBytes "/files/" ++ lowerB name
        = 47 :: 102 :: (strBytes "iles/" ++ lowerB name) from rfl] at hc
    rw [show strBytes "/user-agent" = 47 :: 117 :: strBytes "ser-agent" from rfl] at hc
    injection hc with _ hc
    injection hc with hc _
    exact absurd hc (by decide)
  have hfiles : startsWithB (lowerB (strBytes "/files/" ++ name))
      (strBytes "/files") = true := by
    rw [hlw]; rfl
  unfold handle_get
  rw [if_neg hne, if_neg (by simp [hecho]), if_neg hua, if_pos hfiles,
    sliceFrom_files name]
  rfl

/-! ## Claim theorems -/

/-- C1: for every POST `/files/<name>` whose declared `Content-Length` is
`len` and whose peer supplies exactly `len` body bytes (the buffered prefix
plus an exact read trace), handling the request creates the file
`dir ++ "/" ++ name` whose contents are exactly those `len` bytes and answers
201 with an empty body; a subsequent GET `/files/<name>` answers 200 with a
body equal to those same bytes. -/
theorem c1_post_roundtrip (name dir buf : List Nat) (off len : Nat)
    (reads : List (List Nat)) (fs : FS) (ua : Option (List Nat))
    (enc : Option HttpEncoding)
    (hpre : (buf.drop off).length ≤ len)
    (hdel : validDelivery (len - (buf.drop off).length) reads = true) :
    handle_post (strBytes "/files/" ++ name) off len buf dir reads fs
      = .ok response201
          (fsWrite fs (dir ++ (47 :: name)) (buf.drop off ++ reads.flatten)) []
    ∧ (buf.drop off ++ reads.flatten).length = len
    ∧ response201.status = 201 ∧ response201.body = []
    ∧ handle_get (strBytes "/files/" ++ name) ua enc dir
        (fsWrite fs (dir ++ (47 :: name)) (buf.drop off ++ reads.flatten))
      = .resp (response200bin (buf.drop off ++ reads.flatten))
    ∧ (response200bin (buf.drop off ++ reads.flatten)).status = 200
    ∧ (response200bin (buf.drop off ++ reads.flatten)).body
        = buf.drop off ++ reads.flatten := by
  have hlen := validDelivery_length reads _ hdel
  refine ⟨?_, by rw [List.length_append, hlen]; omega, rfl, rfl, ?_, rfl, rfl⟩
  · simp only [handle_post, sliceFrom_files name, write_file]
    rw [if_neg (by omega), validDelivery_writeLoop reads _ _ hdel]
  · rw [handle_get_files name ua enc dir _, fsRead_fsWrite]

/-- C1 witness: a concrete POST of 3 bytes (prefix `a` already buffered,
`bc` read from the stream) creates the file `d/f` with contents `abc`, and
the follow-up GET answers it back. -/
theorem c1_witness :
    ((([120, 97] : List Nat).drop 1).length ≤ 3
      ∧ validDelivery (3 - (([120, 97] : List Nat).drop 1).length)
          [[98, 99]] = true)
    ∧ handle_post (strBytes "/files/" ++ strBytes "f") 1 3 [120, 97]
        (strBytes "d") [[98, 99]] []
      = .ok response201
          (fsWrite [] (strBytes "d" ++ (47 :: strBytes "f")) [97, 98, 99]) []
    ∧ handle_get (strBytes "/files/" ++ strBytes "f") none none (strBytes "d")
        (fsWrite [] (strBytes "d" ++ (47 :: strBytes "f")) [97, 98, 99])
      = .resp (response200bin [97, 98, 99]) := by
  have h := c1_post_roundtrip (strBytes "f") (strBytes "d") [120, 97] 1 3
    [[98, 99]] [] none none (by decide) (by decide)
  exact ⟨⟨by decide, by decide⟩, h.1, h.2.2.2.2.1⟩

/-- C2: the claim says a zero-length read while draining a POST body is
treated as a hard I/O error that aborts the connection.  The code does the
opposite: a zero-length read subtracts nothing and the `while` loop simply
re-issues the read, so when the peer stops sending, the handler spins
forever — with 3 of 5 declared bytes still owed after prefix `ab`, any
number `k` of zero-length reads leaves the drain loop still owed 3 bytes,
never erroring, never aborting, never responding. -/
theorem c2_zero_read_no_abort :
    ∀ k : Nat,
      writeLoop (strBytes "ab") 3 (List.replicate k [])
        = .starved (strBytes "ab") 3
      ∧ write_file (strBytes "/x") (strBytes "d") (strBytes "ab") 5
          (List.replicate k []) []
        = .hung (fsWrite [] (strBytes "d/x") (strBytes "ab")) (strBytes "ab") 3 := by
  intro k
  have h1 := writeLoop_zero_reads (strBytes "ab") 3 (by omega) k
  refine ⟨h1, ?_⟩
  simp only [write_file]
  rw [if_neg (by decide), show 5 - (strBytes "ab").length = 3 from rfl, h1]
  rfl

/-- C3 counterexample: `POST /abcdef` — a path matching none of the routes —
is not answered 404: the handler writes the file `f` (path byte 6 onward)
under the base directory and answers 201. -/
theorem c3_counterexample :
    handle_post (strBytes "/abcdef") 0 0 [] [] [] []
      = .ok response201 (fsWrite [] (strBytes "f") []) []
    ∧ response201.status = 201
    ∧ ¬ (response201.status = 404 ∧ response201.body = [])
    ∧ fsRead (fsWrite [] (strBytes "f") []) (strBytes "f") = some [] := by
  refine ⟨rfl, rfl, ?_, rfl⟩
  intro hc
  exact absurd hc.1 (by decide)

/-- C3 amended: a successfully parsed GET whose path matches none of `/`,
`/echo*`, `/user-agent`, `/files*` gets 404 with an empty body; POST
requests are not path-routed at all — every POST whose path allows the
`path[6..]` slice is handled as a file write under `dir ++ path[6..]` and
answers 201 once the declared body is received, whatever the path. -/
theorem c3_amended :
    (∀ (path : List Nat) (ua : Option (List Nat)) (enc : Option HttpEncoding)
        (dir : List Nat) (fs : FS),
      path ≠ strBytes "/" →
      startsWithB (lowerB path) (strBytes "/echo") = false →
      lowerB path ≠ strBytes "/user-agent" →
      startsWithB (lowerB path) (strBytes "/files") = false →
      handle_get path ua enc dir fs = .resp response404
      ∧ response404.status = 404 ∧ response404.body = [])
    ∧ (∀ (path buf dir : List Nat) (off len : Nat) (reads : List (List Nat))
        (fs : FS) (p6 : List Nat),
      sliceFrom path 6 = some p6 →
      (buf.drop off).length ≤ len →
      validDelivery (len - (buf.drop off).length) reads = true →
      handle_post path off len buf dir reads fs
        = .ok response201
            (fsWrite fs (dir ++ p6) (buf.drop off ++ reads.flatten)) []
      ∧ response201.status = 201) := by
  constructor
  · intro path ua enc dir fs h1 h2 h3 h4
    refine ⟨?_, rfl, rfl⟩
    unfold handle_get
    rw [if_neg h1, if_neg (by simp [h2]), if_neg h3, if_neg (by simp [h4])]
  · intro path buf dir off len reads fs p6 hs hpre hdel
    refine ⟨?_, rfl⟩
    simp only [handle_post, hs, write_file]
    rw [if_neg (by omega), validDelivery_writeLoop reads _ _ hdel]

/-- C3 witness: `GET /nope` answers 404; `POST /abcxyz` writes file `z` and
answers 201. -/
theorem c3_witness :
    handle_get (strBytes "/nope") none none [] [] = .resp response404
    ∧ handle_post (strBytes "/abcxyz") 0 0 [] [] [] []
      = .ok response201 (fsWrite [] (strBytes "z") []) [] := by
  exact ⟨(c3_amended.1 (strBytes "/nope") none none [] []
      (by decide) (by decide) (by decide) (by decide)).1,
    (c3_amended.2 (strBytes "/abcxyz") [] [] 0 0 [] [] (strBytes "z")
      (by decide) (by decide) (by decide)).1⟩

/-- C4: fragmentation invariance of the incremental parser.  For every
well-formed request head and every split of its bytes into successive read
chunks, every proper accumulation parses to need-more-data (for the head
scanner and for `parse_request` alike), and the complete accumulation —
which is the full byte sequence — parses to the head with its method, path,
headers and body offset. -/
theorem c4_fragmentation_invariance (m p : List Nat)
    (hs : List (List Nat × List Nat)) (hwf : wfHead m p hs)
    (chunks : List (List Nat)) (hj : chunks.flatten = encodeHead m p hs) :
    (∀ k, (chunks.take k).flatten ≠ encodeHead m p hs →
      parseHead ((chunks.take k).flatten) = .ok none
      ∧ parse_request ((chunks.take k).flatten) = .ok none)
    ∧ parseHead chunks.flatten
        = .ok (some ⟨m, p, hs, (encodeHead m p hs).length⟩) := by
  constructor
  · intro k hne
    have hsplitk : (chunks.take k).flatten ++ (chunks.drop k).flatten
        = encodeHead m p hs := by
      rw [← List.flatten_append, List.take_append_drop, hj]
    have htne : (chunks.drop k).flatten ≠ [] := by
      intro h0
      rw [h0, List.append_nil] at hsplitk
      exact hne hsplitk
    have hnone := parseHead_proper_head hwf hsplitk htne
    exact ⟨hnone, by simp [parse_request, hnone]⟩
  · rw [hj]
    exact parseHead_encodeHead hwf

/-- C4 witness: the head `GET /abc HTTP/1.1 … Host: x` split into two chunks
parses to need-more-data after the first chunk and to the full head after
both. -/
theorem c4_witness :
    parseHead (([strBytes "GET /abc HT",
        strBytes "TP/1.1\r\nHost: x\r\n\r\n"].take 1).flatten) = .ok none
    ∧ parseHead ([strBytes "GET /abc HT",
        strBytes "TP/1.1\r\nHost: x\r\n\r\n"].flatten)
      = .ok (some ⟨strBytes "GET", strBytes "/abc",
          [(strBytes "Host", strBytes "x")],
          (encodeHead (strBytes "GET") (strBytes "/abc")
            [(strBytes "Host", strBytes "x")]).length⟩) := by
  have h := c4_fragmentation_invariance (strBytes "GET") (strBytes "/abc")
    [(strBytes "Host", strBytes "x")] (by decide)
    [strBytes "GET /abc HT", strBytes "TP/1.1\r\nHost: x\r\n\r\n"] (by decide)
  exact ⟨(h.1 1 (by decide)).1, h.2⟩

/-- The responses this server ever constructs. -/
def serverResponse (r : HttpResponse) : Prop :=
  (∃ b e, r = response200pt b e) ∨ (∃ b, r = response200bin b) ∨
  r = response201 ∨ r = response404

/-- C5: every response the server sends serializes to exactly the status
line `HTTP/1.1 <code> <reason>`, each header as `<name>: <value>` in
insertion order, a blank line, then the raw body bytes; and every such
response carries a `content-length` header whose value is the decimal byte
length of the body. -/
theorem c5_serialization (r : HttpResponse) (h : serverResponse r) :
    serialize_response r
      = strBytes "HTTP/1.1 " ++ decimalBytes r.status ++ [32]
        ++ reasonOf r.status ++ [13, 10]
        ++ (r.headers.map headerWire).flatten ++ [13, 10] ++ r.body
    ∧ (strBytes "content-length", decimalBytes r.body.length) ∈ r.headers := by
  refine ⟨rfl, ?_⟩
  rcases h with ⟨b, e, rfl⟩ | ⟨b, rfl⟩ | rfl | rfl
  · cases e with
    | none => simp [response200pt, response200]
    | some g => cases g; simp [response200pt, response200]
  · simp [response200bin, response200]
  · decide
  · decide

/-- C5 witness: the 404 response is a server response and carries the
matching `content-length` header. -/
theorem c5_witness :
    serverResponse response404
    ∧ (strBytes "content-length", decimalBytes response404.body.length)
        ∈ response404.headers := by
  have h : serverResponse response404 := Or.inr (Or.inr (Or.inr rfl))
  exact ⟨h, (c5_serialization response404 h).2⟩

/-- C6: a GET `/echo/<rest>` whose `Accept-Encoding` value contains `gzip`
(case-insensitively) answers 200 with a `content-encoding: gzip` header and
a body equal to `<rest>` verbatim — not compressed; when the value does not
contain `gzip`, or the header is absent, no `content-encoding` header is
emitted. -/
theorem c6_gzip_negotiation (rest v : List Nat) (ua : Option (List Nat))
    (dir : List Nat) (fs : FS) (hrest : ∀ b ∈ rest, b < 128) :
    (containsSub (strBytes "gzip") (lowerB v) = true →
      handle_get (strBytes "/echo/" ++ rest) ua (parse_encoding v) dir fs
        = .resp (response200pt rest (some .gzip))
      ∧ (strBytes "content-encoding", strBytes "gzip")
          ∈ (response200pt rest (some .gzip)).headers
      ∧ (response200pt rest (some .gzip)).status = 200
      ∧ (response200pt rest (some .gzip)).body = rest)
    ∧ (containsSub (strBytes "gzip") (lowerB v) = false →
      handle_get (strBytes "/echo/" ++ rest) ua (parse_encoding v) dir fs
        = .resp (response200pt rest none)
      ∧ (∀ hv, (strBytes "content-encoding", hv)
          ∉ (response200pt rest none).headers)
      ∧ (response200pt rest none).status = 200
      ∧ (response200pt rest none).body = rest)
    ∧ handle_get (strBytes "/echo/" ++ rest) ua none dir fs
        = .resp (response200pt rest none) := by
  refine ⟨?_, ?_, handle_get_echo hrest ua none dir fs⟩
  · intro hg
    have he : parse_encoding v = some .gzip := by simp [parse_encoding, hg]
    rw [he]
    refine ⟨handle_get_echo hrest ua _ dir fs, ?_, rfl, rfl⟩
    simp [response200pt, response200]
  · intro hg
    have he : parse_encoding v = none := by simp [parse_encoding, hg]
    rw [he]
    refine ⟨handle_get_echo hrest ua _ dir fs, ?_, rfl, rfl⟩
    intro hv
    simp only [response200pt, response200, List.append_nil, List.mem_cons,
      List.not_mem_nil, or_false, Prod.mk.injEq, not_or]
    exact ⟨fun hc => absurd hc.1 (by decide), fun hc => absurd hc.1 (by decide)⟩

/-- C6 witness: `Accept-Encoding: GZip, deflate` yields the gzip header with
an uncompressed `abc` body; `Accept-Encoding: identity` yields none. -/
theorem c6_witness :
    (∀ b ∈ strBytes "abc", b < 128)
    ∧ handle_get (strBytes "/echo/" ++ strBytes "abc") none
        (parse_encoding (strBytes "GZip, deflate")) [] []
      = .resp (response200pt (strBytes "abc") (some .gzip))
    ∧ handle_get (strBytes "/echo/" ++ strBytes "abc") none
        (parse_encoding (strBytes "identity")) [] []
      = .resp (response200pt (strBytes "abc") none) := by
  have hr : ∀ b ∈ strBytes "abc", b < 128 := by decide
  refine ⟨hr, ?_, ?_⟩
  · exact ((c6_gzip_negotiation (strBytes "abc") (strBytes "GZip, deflate")
      none [] [] hr).1 (by decide)).1
  · exact ((c6_gzip_negotiation (strBytes "abc") (strBytes "identity")
      none [] [] hr).2.1 (by decide)).1

/-- C7: a request carrying `Connection: close` makes the loop write exactly
its response and close (no further reads are consumed, whatever else the
trace holds); a request without it sends its response and the loop awaits
the next request on the remaining trace, so a second request is read and
answered on the same connection. -/
theorem c7_connection_close (dir : List Nat) (fs fs' fs'' : FS)
    (reads leftover l2 : List (List Nat)) (r r2 : HttpResponse) (c2 : Bool) :
    (handleIter dir fs reads = .response r true fs' leftover →
      connLoop dir fs reads = ([serialize_response r], fs', .closedByServer))
    ∧ (handleIter dir fs reads = .response r false fs' leftover →
      connLoop dir fs reads
        = (serialize_response r :: (connLoop dir fs' leftover).1,
            (connLoop dir fs' leftover).2))
    ∧ (handleIter dir fs reads = .response r false fs' leftover →
      handleIter dir fs' leftover = .response r2 c2 fs'' l2 →
      serialize_response r2 ∈ (connLoop dir fs reads).1) := by
  refine ⟨connLoop_step_close, connLoop_step_keep, ?_⟩
  intro h1 h2
  rw [connLoop_step_keep h1]
  cases c2 with
  | true => rw [connLoop_step_close h2]; simp
  | false => rw [connLoop_step_keep h2]; simp

/-- C7 witness: a `Connection: close` request is answered and the socket
closed with nothing further processed; without it, a second request on the
same connection is answered too. -/
theorem c7_witness :
    connLoop [] [] [strBytes "GET / HTTP/1.1\r\nConnection: close\r\n\r\n"]
      = ([serialize_response (response200pt [] none)], [], .closedByServer)
    ∧ serialize_response (response200pt (strBytes "foo") none)
        ∈ (connLoop [] [] [strBytes "GET / HTTP/1.1\r\n\r\n",
            strBytes "GET /user-agent HTTP/1.1\r\nUser-Agent: foo\r\n\r\n"]).1 := by
  constructor
  · exact (c7_connection_close [] [] [] []
      [strBytes "GET / HTTP/1.1\r\nConnection: close\r\n\r\n"] [] []
      (response200pt [] none) response404 false).1 (by decide)
  · exact (c7_connection_close [] [] [] []
      [strBytes "GET / HTTP/1.1\r\n\r\n",
        strBytes "GET /user-agent HTTP/1.1\r\nUser-Agent: foo\r\n\r\n"]
      [strBytes "GET /user-agent HTTP/1.1\r\nUser-Agent: foo\r\n\r\n"] []
      (response200pt [] none) (response200pt (strBytes "foo") none)
      false).2.2 (by decide) (by decide)

/-- C8: a completely parsed head whose method token is neither `GET` nor
`POST` makes `parse_request` fail, as does a malformed head; and when the
read loop hits a parse failure the connection loop ends with no bytes ever
written back — no 501/405/400 response exists. -/
theorem c8_unsupported_method :
    (∀ (buf : List Nat) (h : ParsedHead), parseHead buf = .ok (some h) →
      h.method ≠ strBytes "GET" → h.method ≠ strBytes "POST" →
      parse_request buf = .error ())
    ∧ (∀ buf : List Nat, parseHead buf = .error () →
      parse_request buf = .error ())
    ∧ (∀ (dir : List Nat) (fs : FS) (reads : List (List Nat)),
      readParse [] reads = .malformed →
      connLoop dir fs reads = ([], fs, .malformed)) := by
  refine ⟨?_, ?_, fun dir fs reads h => connLoop_step_malformed h⟩
  · intro buf h hp hg hpo
    simp [parse_request, hp, hg, hpo]
  · intro buf hp
    simp [parse_request, hp]

/-- C8 witness: `DELETE /` parses its head but fails method dispatch, and
the connection loop writes nothing back. -/
theorem c8_witness :
    parse_request (strBytes "DELETE / HTTP/1.1\r\n\r\n") = .error ()
    ∧ connLoop [] [] [strBytes "DELETE / HTTP/1.1\r\n\r\n"]
      = ([], [], .malformed) := by
  refine ⟨?_, ?_⟩
  · exact c8_unsupported_method.1 (strBytes "DELETE / HTTP/1.1\r\n\r\n")
      ⟨strBytes "DELETE", strBytes "/", [], 21⟩ rfl (by decide) (by decide)
  · exact c8_unsupported_method.2.2 [] []
      [strBytes "DELETE / HTTP/1.1\r\n\r\n"] (by decide)

/-- C9: the byte-6 path slice in the router is not total: `GET /echo`
(5-byte path) is accepted by the parser but dispatch panics, and a POST with
a path shorter than 6 bytes (here `/x`) is accepted by the parser but
dispatch panics; in both cases the connection ends with a panic instead of a
response or error value. -/
theorem c9_slice_panics :
    parse_request (strBytes "GET /echo HTTP/1.1\r\n\r\n")
      = .ok (some (.get false (strBytes "/echo") none none))
    ∧ handle_get (strBytes "/echo") none none [] [] = .panicked
    ∧ connLoop [] [] [strBytes "GET /echo HTTP/1.1\r\n\r\n"]
      = ([], [], .panicked)
    ∧ parse_request (strBytes "POST /x HTTP/1.1\r\nContent-Length: 0\r\n\r\n")
      = .ok (some (.post false (strBytes "/x") 39 0))
    ∧ handle_post (strBytes "/x") 39 0
        (strBytes "POST /x HTTP/1.1\r\nContent-Length: 0\r\n\r\n") [] [] []
      = .panicked []
    ∧ connLoop [] [] [strBytes "POST /x HTTP/1.1\r\nContent-Length: 0\r\n\r\n"]
      = ([], [], .panicked) := by
  exact ⟨rfl, rfl, rfl, rfl, rfl, rfl⟩

/-- C10: `write_file` silently assumes the buffered body prefix is no longer
than the declared `Content-Length`: when it is longer, the subtraction
`content_len - content_prefix.len()` underflows (a panic in a checked
build), and the whole prefix — more than `Content-Length` bytes — has
already been written to the created file. -/
theorem c10_underflow :
    (∀ (path6 dir pre : List Nat) (len : Nat) (reads : List (List Nat))
        (fs : FS),
      len < pre.length →
      write_file path6 dir pre len reads fs
        = .panicked (fsWrite fs (dir ++ path6) pre) pre
      ∧ fsRead (fsWrite fs (dir ++ path6) pre) (dir ++ path6) = some pre)
    ∧ (∀ (path buf dir : List Nat) (off len : Nat) (reads : List (List Nat))
        (fs : FS) (p6 : List Nat),
      sliceFrom path 6 = some p6 →
      len < (buf.drop off).length →
      handle_post path off len buf dir reads fs
        = .panicked (fsWrite fs (dir ++ p6) (buf.drop off))) := by
  constructor
  · intro path6 dir pre len reads fs h
    refine ⟨?_, fsRead_fsWrite fs _ pre⟩
    simp only [write_file]
    rw [if_pos h]
  · intro path buf dir off len reads fs p6 hs h
    simp only [handle_post, hs, write_file]
    rw [if_pos h]

/-- C10 witness: prefix `ab` (2 bytes) with declared length 1 panics after
writing both bytes to the file. -/
theorem c10_witness :
    (1 < ([97, 98] : List Nat).length)
    ∧ write_file (strBytes "/f") (strBytes "d") [97, 98] 1 [] []
      = .panicked (fsWrite [] (strBytes "d" ++ strBytes "/f") [97, 98]) [97, 98]
    ∧ handle_post (strBytes "/files/f") 0 1 [97, 98] (strBytes "d") [] []
      = .panicked (fsWrite [] (strBytes "d" ++ strBytes "/f") [97, 98]) := by
  refine ⟨by decide, ?_, ?_⟩
  · exact (c10_underflow.1 (strBytes "/f") (strBytes "d") [97, 98] 1 [] []
      (by decide)).1
  · exact c10_underflow.2 (strBytes "/files/f") [97, 98] (strBytes "d") 0 1
      [] [] (strBytes "/f") (by decide) (by decide)

end BasicHttpServer
